import Mathlib

/-!
Verification of `freemankevin/dockerhub-mirror`.

Shallow embedding of the Python sources under `scripts/`:
  * `docker_hub_api.py` — `DockerHubAPI.version_key`,
    `get_all_matching_versions`, `get_latest_version`,
    `get_latest_versions_batch`;
  * `manifest_manager.py` — `ManifestManager.update_versions`,
    `_save_manifest`;
  * `mirror_sync.py` — `MirrorSync.needs_sync`, `mirror_image`,
    `sync_single_version`, `sync_from_manifest`.

External effects (HTTP tag listing, the `regctl` subprocess, `random`
jitter, thread scheduling) are passed in as explicit oracle arguments;
each Python function body is translated statement by statement.
Python string operations are modelled on `List Char` (via `String.data`)
so that all definitions evaluate inside the kernel.
-/

namespace DockerhubMirror

/-! ### Character-list models of the Python `str` operations used -/

/-- Python `s.split(sep)` for a one-character separator `sep`
(the sources only split on `'-'`, `'.'` and `':'`). Always returns a
nonempty list of pieces; empty pieces are kept, as in Python. -/
def chSplit (sep : Char) : List Char → List (List Char)
  | [] => [[]]
  | c :: rest =>
    let r := chSplit sep rest
    if c == sep then [] :: r
    else
      match r with
      | [] => [[c]]
      | p :: ps => (c :: p) :: ps

/-- Boolean list-prefix test (model of Python `str.startswith`). -/
def chIsPrefix : List Char → List Char → Bool
  | [], _ => true
  | _ :: _, [] => false
  | a :: as, b :: bs => a == b && chIsPrefix as bs

/-- Boolean substring test (model of Python `needle in haystack`). -/
def chContains (hay needle : List Char) : Bool :=
  if chIsPrefix needle hay then true
  else
    match hay with
    | [] => false
    | _ :: t => chContains t needle

/-- Model of Python `str.strip()` (strip whitespace at both ends). -/
def chTrim (cs : List Char) : List Char :=
  ((cs.dropWhile Char.isWhitespace).reverse.dropWhile Char.isWhitespace).reverse

/-- Model of Python `str.lower()` (ASCII case-folding suffices here). -/
def chToLower (cs : List Char) : List Char :=
  cs.map Char.toLower

/-! ### Model of Python `int(str)`

`int(part)` in `version_key` accepts an optionally signed decimal
numeral (surrounding whitespace stripped, single underscores allowed
between digits) and raises `ValueError` otherwise; the caller turns the
exception into a default of `0`. We model it as an `Option Int`. -/

/-- Numeric value of a list of decimal digit characters. -/
def digitsVal (cs : List Char) : Int :=
  cs.foldl (fun acc c => acc * 10 + ((c.toNat : Int) - 48)) 0

/-- No two consecutive underscores. -/
def noDoubleUnderscore : List Char → Bool
  | c1 :: c2 :: rest =>
    (!(c1 == '_' && c2 == '_')) && noDoubleUnderscore (c2 :: rest)
  | _ => true

/-- An unsigned Python integer literal body: nonempty, digits with
underscores allowed only strictly between digits. -/
def pyIntDigits (cs : List Char) : Option Int :=
  if (!cs.isEmpty)
      && cs.all (fun c => c.isDigit || c == '_')
      && (cs.headD '_').isDigit
      && (cs.getLastD '_').isDigit
      && noDoubleUnderscore cs then
    some (digitsVal (cs.filter (fun c => c != '_')))
  else
    none

/-- Model of Python `int : str → int`, `none` meaning `ValueError`. -/
def pyInt (cs : List Char) : Option Int :=
  match chTrim cs with
  | [] => none
  | c :: rest =>
    if c == '+' then pyIntDigits rest
    else if c == '-' then (pyIntDigits rest).map (fun n => -n)
    else pyIntDigits (c :: rest)

/-! ### `DockerHubAPI.version_key` (docker_hub_api.py, lines 41-74) -/

/-- One position of the `re.search` for `(\d{4})-(\d{2})-(\d{2})`:
does the date pattern match starting at the head of `cs`? -/
def dateAt (cs : List Char) : Option (Int × Int × Int) :=
  match cs with
  | y1 :: y2 :: y3 :: y4 :: h1 :: m1 :: m2 :: h2 :: d1 :: d2 :: _ =>
    if y1.isDigit && y2.isDigit && y3.isDigit && y4.isDigit
        && h1 == '-' && m1.isDigit && m2.isDigit
        && h2 == '-' && d1.isDigit && d2.isDigit then
      some (digitsVal [y1, y2, y3, y4], digitsVal [m1, m2], digitsVal [d1, d2])
    else none
  | _ => none

/-- Leftmost match of `re.search(r'(\d{4})-(\d{2})-(\d{2})', s)`:
scan positions left to right (the pattern is fixed-width, so Python's
scan and this one agree). -/
def findDate : List Char → Option (Int × Int × Int)
  | [] => none
  | c :: rest =>
    match dateAt (c :: rest) with
    | some r => some r
    | none => findDate rest

/-- The non-`RELEASE` arm of `version_key`: strip a leading `v`, keep
the part before the first `-`, split on `.`, parse each part with
`int` defaulting to `0`, pad with zeros to length 3, take 3. -/
def parseCore (cs : List Char) : List Int :=
  let cs1 := match cs with
    | 'v' :: rest => rest
    | _ => cs
  let core := (chSplit '-' cs1).headD []
  let parts := (chSplit '.' core).map (fun p => (pyInt p).getD 0)
  (parts ++ List.replicate (3 - parts.length) 0).take 3

/-- `DockerHubAPI.version_key`: an empty string gives `(0,0,0)`; a
`RELEASE.`-prefixed string containing a `yyyy-mm-dd` date gives that
date triple; otherwise the dotted-numeral parse. The Python body never
raises, so the enclosing `try/except` default of `(0,0,0)` is dead. -/
def versionKey (s : String) : List Int :=
  if s.data.isEmpty then [0, 0, 0]
  else if chIsPrefix "RELEASE.".data s.data then
    match findDate s.data with
    | some (y, m, d) => [y, m, d]
    | none => parseCore s.data
  else parseCore s.data

example : versionKey "" = [0, 0, 0] := by decide
example : versionKey "latest" = [0, 0, 0] := by decide
example : versionKey "1.2.3" = [1, 2, 3] := by decide
example : versionKey "v1.10.0" = [1, 10, 0] := by decide
example : versionKey "v1.0-alpine" = [1, 0, 0] := by decide
example : versionKey "RELEASE.2025-10-15T17-29-55Z" = [2025, 10, 15] := by decide

/-! ### Model of Python `re.match`

`get_all_matching_versions` filters tags with `re.match(pattern, tag)`,
which anchors the pattern at the start of the string and succeeds on any
prefix match. We model the fragment of Python regex syntax exercised by
the repository's patterns: literal characters, `.`, `\d`, the postfix
`*`, an optional leading `^`, and `\`-escaped literals. Unsupported
syntax parses to `none` (such a pattern never occurs in the claims). -/

/-- A single-character regex atom. -/
inductive RAtom where
  | lit (c : Char)
  | dot
  | digit
deriving DecidableEq

/-- A regex token: one atom, or an atom under a postfix `*`. -/
inductive RTok where
  | once (a : RAtom)
  | star (a : RAtom)
deriving DecidableEq

/-- Regex metacharacters we refuse to parse as literals. -/
def regexSpecials : List Char :=
  "*+?()[]|^$".data ++ [Char.ofNat 123, Char.ofNat 125]

/-- Parse one atom off the front of a pattern. -/
def parseAtom : List Char → Option (RAtom × List Char)
  | '\\' :: 'd' :: r => some (RAtom.digit, r)
  | '\\' :: '.' :: r => some (RAtom.lit '.', r)
  | '\\' :: '\\' :: r => some (RAtom.lit '\\', r)
  | '\\' :: _ => none
  | '.' :: r => some (RAtom.dot, r)
  | c :: r => if c ∈ regexSpecials || c == '\\' then none else some (RAtom.lit c, r)
  | [] => none

/-- Fueled token-list parser; each step consumes at least one input
character, so fuel equal to the pattern length always suffices. -/
def parseToksFuel : Nat → List Char → Option (List RTok)
  | _, [] => some []
  | 0, _ :: _ => none
  | fuel + 1, cs =>
    match parseAtom cs with
    | none => none
    | some (a, r) =>
      match r with
      | '*' :: r2 => (parseToksFuel fuel r2).map (fun ts => RTok.star a :: ts)
      | _ => (parseToksFuel fuel r).map (fun ts => RTok.once a :: ts)

/-- Parse a whole pattern (after the optional leading `^`). -/
def parseRegexToks (p : List Char) : Option (List RTok) :=
  parseToksFuel p.length p

/-- Does atom `a` accept character `c`? (`.` excludes newline, as in
Python without `re.DOTALL`; `\d` on ASCII digits.) -/
def matchAtom (a : RAtom) (c : Char) : Bool :=
  match a with
  | RAtom.lit c2 => c == c2
  | RAtom.dot => c != '\n'
  | RAtom.digit => c.isDigit

/-- Fueled matcher; each recursive call strictly decreases
`ts.length + cs.length`, so fuel `ts.length + cs.length + 1` suffices. -/
def rmatchFuel : Nat → List RTok → List Char → Bool
  | _, [], _ => true
  | 0, _ :: _, _ => false
  | fuel + 1, RTok.once a :: ts, cs =>
    match cs with
    | [] => false
    | c :: cs2 => matchAtom a c && rmatchFuel fuel ts cs2
  | fuel + 1, RTok.star a :: ts, cs =>
    rmatchFuel fuel ts cs ||
      (match cs with
       | [] => false
       | c :: cs2 => matchAtom a c && rmatchFuel fuel (RTok.star a :: ts) cs2)

/-- Does some prefix of `cs` match the token list? This is exactly the
acceptance condition of Python `re.match` (unanchored at the end). -/
def rmatch (ts : List RTok) (cs : List Char) : Bool :=
  rmatchFuel (ts.length + cs.length + 1) ts cs

/-- Model of truthiness of `re.match(pat, s)`: strip an optional
leading `^` (redundant under `re.match`), parse, and test for a prefix
match. -/
def reMatchB (pat : String) (s : String) : Bool :=
  let p :=
    match pat.data with
    | '^' :: rest => rest
    | cs => cs
  match parseRegexToks p with
  | some toks => rmatch toks s.data
  | none => false

example : reMatchB ".*" "latest" = true := by decide
example : reMatchB "^v\\d" "v1.0" = true := by decide
example : reMatchB "^v\\d" "1.0" = false := by decide
example : reMatchB "alpine" "v1.0-alpine" = false := by decide
example : reMatchB "alpine" "alpine3.19" = true := by decide

/-! ### Tag ordering used by `matching_tags.sort(key=self.version_key)` -/

/-- Python tuple `<=` on integer lists (lexicographic; a proper prefix
is smaller). -/
def keyLeB : List Int → List Int → Bool
  | [], _ => true
  | _ :: _, [] => false
  | a :: as, b :: bs =>
    if a < b then true else if b < a then false else keyLeB as bs

theorem keyLeB_total : ∀ x y : List Int, keyLeB x y = true ∨ keyLeB y x = true := by
  intro x
  induction x with
  | nil => intro y; left; rfl
  | cons a as ih =>
    intro y
    cases y with
    | nil => right; rfl
    | cons b bs =>
      simp only [keyLeB]
      rcases lt_trichotomy a b with h | h | h
      · left; simp [h]
      · subst h
        rcases ih bs with h2 | h2 <;> simp [h2, lt_irrefl]
      · right; simp [h, not_lt.mpr (le_of_lt h)]

theorem keyLeB_trans :
    ∀ x y z : List Int, keyLeB x y = true → keyLeB y z = true → keyLeB x z = true := by
  intro x
  induction x with
  | nil => intro y z _ _; rfl
  | cons a as ih =>
    intro y z hxy hyz
    cases y with
    | nil => simp [keyLeB] at hxy
    | cons b bs =>
      cases z with
      | nil => simp [keyLeB] at hyz
      | cons c cs =>
        simp only [keyLeB] at hxy hyz ⊢
        split_ifs at hxy hyz ⊢ <;>
          first
          | rfl
          | omega
          | exact ih bs cs hxy hyz

/-- The comparison passed to the stable sort: `version_key`-ordering. -/
def tagLe (a b : String) : Prop :=
  keyLeB (versionKey a) (versionKey b) = true

instance : DecidableRel tagLe := fun _ _ => Bool.decEq _ _

instance : IsTotal String tagLe := ⟨fun _ _ => keyLeB_total _ _⟩

instance : IsTrans String tagLe :=
  ⟨fun _ _ _ hab hbc => keyLeB_trans _ _ _ hab hbc⟩

/-! ### `DockerHubAPI.get_all_matching_versions` and `get_latest_version`
(docker_hub_api.py, lines 76-167)

The HTTP pagination loop only accumulates the tag names returned by the
registry; we abstract it as the input list `tags` (in arrival order) and
model the pure part: filtering, `list(set(...))` deduplication, and the
stable sort `matching_tags.sort(key=self.version_key)`.

`list(set(...))` enumerates in an unspecified order; we model it as
`List.dedup`. Every property proved below about the output is either
membership-based (order-irrelevant) or concerns inputs on which the sort
order is independent of the deduplication order. -/

/-- The per-tag filter of the pagination loop: keep `tag_name` when
`re.match(tag_pattern, tag_name)` succeeds and, when `exclude_pattern`
is present and truthy (nonempty), `re.match(exclude_pattern, tag_name)`
fails. -/
def tagFilter (tagPattern : String) (excludePattern : Option String)
    (t : String) : Bool :=
  reMatchB tagPattern t &&
    !(match excludePattern with
      | some p => (!p.data.isEmpty) && reMatchB p t
      | none => false)

/-- `DockerHubAPI.get_all_matching_versions`, given the tag names the
registry returned: filter, return `[]` when nothing matched, otherwise
deduplicate and stable-sort by `version_key`. -/
def getAllMatchingVersions (tagPattern : String)
    (excludePattern : Option String) (tags : List String) : List String :=
  if (tags.filter (tagFilter tagPattern excludePattern)).isEmpty then []
  else
    List.insertionSort tagLe
      (tags.filter (tagFilter tagPattern excludePattern)).dedup

/-- `DockerHubAPI.get_latest_version`: `None` on an empty match list,
otherwise the last element `matching_tags[-1]`. -/
def getLatestVersion (tagPattern : String) (excludePattern : Option String)
    (tags : List String) : Option String :=
  (getAllMatchingVersions tagPattern excludePattern tags).getLast?

example :
    "v1.0-alpine" ∈ getAllMatchingVersions "^v\\d" (some "alpine")
      ["v1.0", "v1.0-alpine", "1.0", "v2.0"] := by decide

example :
    getLatestVersion ".*" none ["1.2.3", "v1.10.0", "1.2", "latest"] =
      some "v1.10.0" := by decide

example : getLatestVersion ".*" none ["latest"] = some "latest" := by decide

/-! ### `MirrorSync` (mirror_sync.py)

External effects are oracles: the two `regctl image digest` calls give a
`Option String` each (`none` for a non-zero exit or an exception, as
`_get_image_digest` collapses both to `None`); each `regctl image copy`
invocation gives a `CopyOutcome`; `random.uniform(0, 1)` is a function
from the attempt number to a rational. Python floats are modelled as
`ℚ`. -/

/-- Result of one `regctl image copy` invocation: exit code 0, non-zero
exit with the captured stderr, `subprocess.TimeoutExpired`, or any
other exception. -/
inductive CopyOutcome where
  | ok
  | failed (stderr : String)
  | timedOut
  | raised
deriving DecidableEq

/-- What `mirror_image` did: its return value, how many times the copy
primitive was invoked, and the `time.sleep` durations in order. -/
structure LoopTrace where
  result : Bool
  calls : Nat
  sleeps : List ℚ
deriving DecidableEq, Repr

/-- The rate-limit test on stderr:
`'rate limit exceeded' in result.stderr.lower() or 'TOOMANYREQUESTS' in
result.stderr`. -/
def isRateLimit (stderr : String) : Bool :=
  chContains (chToLower stderr.data) "rate limit exceeded".data ||
    chContains stderr.data "TOOMANYREQUESTS".data

/-- Truthiness of a digest-lookup result (`if not source_digest:` treats
both `None` and an empty string as missing). -/
def pyTruthy (o : Option String) : Bool :=
  match o with
  | none => false
  | some s => !s.data.isEmpty

/-- `MirrorSync.needs_sync` on the two digest-lookup results. -/
def needsSync (srcDigest tgtDigest : Option String) : Bool :=
  if !(pyTruthy srcDigest) then true
  else if !(pyTruthy tgtDigest) then true
  else !(srcDigest == tgtDigest)

/-- The body of `for attempt in range(max_retries)` in `mirror_image`.
`fuel` is the number of remaining loop iterations
(`maxRetries - attempt`); exhausted fuel is the fall-through
`return False` after the loop. Before every attempt except the first,
the loop sleeps `retry_delay * 2 ** (attempt - 1) + random.uniform(0, 1)`.
A rate-limit failure, a timeout, and an unexpected exception `continue`
while `attempt < max_retries - 1`; any other non-zero exit returns
`False` at once. -/
def mirrorLoopGo (maxRetries : Nat) (retryDelay : ℚ) (jitter : Nat → ℚ)
    (attemptRes : Nat → CopyOutcome) : Nat → Nat → LoopTrace
  | _, 0 => ⟨false, 0, []⟩
  | attempt, fuel + 1 =>
    let sleeps0 : List ℚ :=
      if 0 < attempt then [retryDelay * 2 ^ (attempt - 1) + jitter attempt]
      else []
    match attemptRes attempt with
    | CopyOutcome.ok => ⟨true, 1, sleeps0⟩
    | CopyOutcome.failed stderr =>
      if isRateLimit stderr then
        if attempt < maxRetries - 1 then
          let t := mirrorLoopGo maxRetries retryDelay jitter attemptRes (attempt + 1) fuel
          ⟨t.result, t.calls + 1, sleeps0 ++ t.sleeps⟩
        else ⟨false, 1, sleeps0⟩
      else ⟨false, 1, sleeps0⟩
    | CopyOutcome.timedOut =>
      if attempt < maxRetries - 1 then
        let t := mirrorLoopGo maxRetries retryDelay jitter attemptRes (attempt + 1) fuel
        ⟨t.result, t.calls + 1, sleeps0 ++ t.sleeps⟩
      else ⟨false, 1, sleeps0⟩
    | CopyOutcome.raised =>
      if attempt < maxRetries - 1 then
        let t := mirrorLoopGo maxRetries retryDelay jitter attemptRes (attempt + 1) fuel
        ⟨t.result, t.calls + 1, sleeps0 ++ t.sleeps⟩
      else ⟨false, 1, sleeps0⟩

/-- The retry loop of `mirror_image`, started at attempt 0. -/
def mirrorLoop (maxRetries : Nat) (retryDelay : ℚ) (jitter : Nat → ℚ)
    (attemptRes : Nat → CopyOutcome) : LoopTrace :=
  mirrorLoopGo maxRetries retryDelay jitter attemptRes 0 maxRetries

/-- `MirrorSync.mirror_image`: when `needs_sync` is false the skip is
counted as success with zero copy invocations; otherwise the retry
loop runs. -/
def mirrorImage (srcDigest tgtDigest : Option String) (maxRetries : Nat)
    (retryDelay : ℚ) (jitter : Nat → ℚ) (attemptRes : Nat → CopyOutcome) :
    LoopTrace :=
  if !(needsSync srcDigest tgtDigest) then ⟨true, 0, []⟩
  else mirrorLoop maxRetries retryDelay jitter attemptRes

example :
    (mirrorLoop 3 2 (fun _ => 0) (fun _ => CopyOutcome.failed "manifest unknown")).calls
      = 1 := by decide
example :
    (mirrorLoop 3 2 (fun _ => 0)
        (fun _ => CopyOutcome.failed "rate limit exceeded")).calls = 3 := by decide

/-! ### `sync_single_version` and the scheduler state
(mirror_sync.py, lines 182-344)

`mirrored_images`, `success_count` and `fail_count` are only mutated
inside `with self._lock:` blocks, so each task contributes one atomic
state update; a run of the pool is a fold of those updates in some
completion order. -/

/-- One entry of `self.mirrored_images` (the wall-clock `synced_at`
field is omitted). -/
structure SyncRecord where
  name : String
  source : String
  target : String
  version : String
  description : String
  repository : String
deriving DecidableEq, Repr

/-- The three fields guarded by `self._lock`. -/
structure SyncState where
  mirroredImages : List SyncRecord
  successCount : Nat
  failCount : Nat
deriving DecidableEq, Repr

/-- The starting state set in `MirrorSync.__init__`. -/
def initialSyncState : SyncState := ⟨[], 0, 0⟩

/-- Constructor parameters of `MirrorSync` used by a sync run. -/
structure SyncConfig where
  registry : String
  owner : String
  maxRetries : Nat
  retryDelay : ℚ

/-- One task from the `sync_tasks` list of `sync_from_manifest`. -/
structure SyncTask where
  imageName : String
  version : String
  description : String
deriving DecidableEq, Repr

/-- The oracle for one task: its two digest lookups, its copy attempts,
and its retry jitter. -/
structure TaskOracle where
  srcDigest : Option String
  tgtDigest : Option String
  copy : Nat → CopyOutcome
  jitter : Nat → ℚ

/-- `image_name.replace('/', '__')`. -/
def chReplaceSlash : List Char → List Char
  | [] => []
  | '/' :: r => '_' :: '_' :: chReplaceSlash r
  | c :: r => c :: chReplaceSlash r

/-- The repository component of the target image name. -/
def repoName (imageName : String) : String :=
  String.mk (chReplaceSlash imageName.data)

/-- `MirrorSync._is_ghcr_source`. -/
def isGhcrSource (source : String) : Bool :=
  chIsPrefix "ghcr.io/".data source.data

/-- `MirrorSync.sync_single_version`: the returned boolean plus the
(lock-guarded, hence atomic) state update it performs. -/
def syncSingleVersion (cfg : SyncConfig) (task : SyncTask) (o : TaskOracle)
    (st : SyncState) : Bool × SyncState :=
  let sourceImage := task.imageName ++ ":" ++ task.version
  let repo := repoName task.imageName
  let targetImage :=
    cfg.registry ++ "/" ++ cfg.owner ++ "/" ++ repo ++ ":" ++ task.version
  if isGhcrSource sourceImage then
    (true,
      { st with
        mirroredImages := st.mirroredImages ++
          [⟨task.imageName, sourceImage, sourceImage, task.version,
            task.description, repo⟩],
        successCount := st.successCount + 1 })
  else if (mirrorImage o.srcDigest o.tgtDigest cfg.maxRetries cfg.retryDelay
      o.jitter o.copy).result then
    (true,
      { st with
        mirroredImages := st.mirroredImages ++
          [⟨task.imageName, sourceImage, targetImage, task.version,
            task.description, repo⟩],
        successCount := st.successCount + 1 })
  else
    (false, { st with failCount := st.failCount + 1 })

/-- Did this task's copy end up confirmed successful? (GHCR-origin
shortcut, digest-equal skip, or a copy attempt with exit code 0.) -/
def taskSuccess (cfg : SyncConfig) (task : SyncTask) (o : TaskOracle) : Bool :=
  isGhcrSource (task.imageName ++ ":" ++ task.version) ||
    (mirrorImage o.srcDigest o.tgtDigest cfg.maxRetries cfg.retryDelay
      o.jitter o.copy).result

/-- The record `sync_single_version` appends when the task succeeds. -/
def taskRecord (cfg : SyncConfig) (task : SyncTask) (_o : TaskOracle) :
    SyncRecord :=
  let sourceImage := task.imageName ++ ":" ++ task.version
  let repo := repoName task.imageName
  if isGhcrSource sourceImage then
    ⟨task.imageName, sourceImage, sourceImage, task.version,
      task.description, repo⟩
  else
    ⟨task.imageName, sourceImage,
      cfg.registry ++ "/" ++ cfg.owner ++ "/" ++ repo ++ ":" ++ task.version,
      task.version, task.description, repo⟩

/-- A whole pool run: the per-task atomic updates applied in completion
order (`tasks` lists the tasks in that order, each with its oracle). -/
def runTasks (cfg : SyncConfig) (tasks : List (SyncTask × TaskOracle))
    (st : SyncState) : SyncState :=
  tasks.foldl (fun s p => (syncSingleVersion cfg p.1 p.2 s).2) st

/-! ### `ManifestManager.update_versions` (manifest_manager.py, lines 64-169)

The resolver (`api.get_latest_version`, a network call) is an oracle
`String → String → Option String → Option String` taking
`(repository, tag_pattern, exclude_pattern)`; the claims fix its
outcomes. The manifest is its list of image entries; `_save_manifest`
(a file write plus a `last_checked` timestamp) is modelled by counting
how many times it is called. -/

/-- One element of `manifest['images']`. `enabled` defaults to `True`,
`tag_pattern`/`exclude_pattern` to `None`. -/
structure ImageEntry where
  enabled : Bool
  source : String
  tagPattern : Option String
  excludePattern : Option String
deriving DecidableEq, Repr

/-- What a call to `update_versions` did: the final entry list, the
returned `updated_count`, and how many times `_save_manifest` ran. -/
structure UpdateResult where
  entries : List ImageEntry
  updatedCount : Nat
  saveCount : Nat
deriving DecidableEq, Repr

/-- The fields of one element of `images_to_check`. -/
structure CheckItem where
  name : String
  cur : String
  pat : String
  exc : Option String
deriving DecidableEq, Repr

/-- `source.rsplit(':', 1)` when a colon is present, else
`(source, 'latest')`. -/
def splitSourceTag (s : String) : String × String :=
  let ps := chSplit ':' s.data
  if ps.length ≤ 1 then (s, "latest")
  else (String.mk (List.intercalate [':'] ps.dropLast), String.mk (ps.getLastD []))

/-- The `images_to_check` admission test: entry enabled and
`tag_pattern` truthy (present and nonempty). -/
def entryCheck (e : ImageEntry) : Option CheckItem :=
  if e.enabled then
    match e.tagPattern with
    | some p =>
      if !p.data.isEmpty then
        let nc := splitSourceTag e.source
        some ⟨nc.1, nc.2, p, e.excludePattern⟩
      else none
    | none => none
  else none

/-- The shared per-entry update step (identical in the serial and the
concurrent branch): when the looked-up latest version is truthy and
differs from the current one, count it, and mutate
`img['source'] = f"{image_name}:{latest_version}"` unless `dry_run`. -/
def updateOneEntry (dryRun : Bool)
    (latestFor : String → String → Option String → Option String)
    (e : ImageEntry) : ImageEntry × Nat :=
  match entryCheck e with
  | none => (e, 0)
  | some it =>
    match latestFor it.name it.pat it.exc with
    | some v =>
      if (!v.data.isEmpty) && v != it.cur then
        if dryRun then (e, 1)
        else ({ e with source := it.name ++ ":" ++ v }, 1)
      else (e, 0)
    | none => (e, 0)

/-- The whole of `update_versions` after the lookup strategy is fixed:
per-entry updates, then a single `_save_manifest()` iff
`updated_count > 0 and not dry_run`. -/
def runUpdate (dryRun : Bool)
    (latestFor : String → String → Option String → Option String)
    (entries : List ImageEntry) : UpdateResult :=
  let pairs := entries.map (updateOneEntry dryRun latestFor)
  let cnt := (pairs.map Prod.snd).sum
  { entries := pairs.map Prod.fst,
    updatedCount := cnt,
    saveCount := if 0 < cnt ∧ dryRun = false then 1 else 0 }

/-- Serial branch: each checked entry queries
`api.get_latest_version(image_name, tag_pattern, exclude_pattern)`
directly. -/
def updateVersionsSerial
    (resolver : String → String → Option String → Option String)
    (dryRun : Bool) (entries : List ImageEntry) : UpdateResult :=
  runUpdate dryRun resolver entries

/-- The result list `get_latest_versions_batch` would return if futures
completed in submission order: one `(repository, latest)` pair per
checked entry. `as_completed` may deliver any permutation of this. -/
def batchResults
    (resolver : String → String → Option String → Option String)
    (entries : List ImageEntry) : List (String × Option String) :=
  (entries.filterMap entryCheck).map (fun it => (it.name, resolver it.name it.pat it.exc))

/-- `version_map = {repo: version for repo, version in results}` followed
by `version_map.get(image_name)`: the dict keeps the LAST binding of a
repeated key, and `.get` of a missing key is `None`. -/
def vmLookup (results : List (String × Option String)) (n : String) :
    Option String :=
  match results.reverse.find? (fun p => p.1 == n) with
  | some p => p.2
  | none => none

/-- Concurrent branch of `update_versions`, parameterised by the order
`results` in which `as_completed` delivered the batch lookups (any
permutation of `batchResults`): every checked entry then reads the
dict keyed by repository name only. -/
def updateVersionsConc (dryRun : Bool)
    (results : List (String × Option String)) (entries : List ImageEntry) :
    UpdateResult :=
  runUpdate dryRun (fun n _ _ => vmLookup results n) entries

/-- Top-level `update_versions`: the concurrent path is taken when
`use_concurrency` is set and some entry passed the admission test. -/
def updateVersions
    (resolver : String → String → Option String → Option String)
    (results : List (String × Option String)) (useConc dryRun : Bool)
    (entries : List ImageEntry) : UpdateResult :=
  if useConc && !(entries.filterMap entryCheck).isEmpty then
    updateVersionsConc dryRun results entries
  else
    updateVersionsSerial resolver dryRun entries

/-! ### Concrete instances used by individual claims -/

/-- A manifest entry `repo:1.0` checked under pattern `a`. -/
def entA : ImageEntry := ⟨true, "repo:1.0", some "a", none⟩

/-- A second entry for the same repository under pattern `b`. -/
def entB : ImageEntry := ⟨true, "repo:1.0", some "b", none⟩

/-- A fixed resolver outcome per `(repository, pattern, exclude)`. -/
def resolverAB : String → String → Option String → Option String :=
  fun n p _ =>
    if n == "repo" && p == "a" then some "2.0"
    else if n == "repo" && p == "b" then some "1.0"
    else none

/-- Entry `alpha:1.0` (distinct repository names scenario). -/
def entC : ImageEntry := ⟨true, "alpha:1.0", some "p", none⟩

/-- Entry `beta:2.0` (distinct repository names scenario). -/
def entD : ImageEntry := ⟨true, "beta:2.0", some "q", none⟩

/-- Fixed resolver for the distinct-names scenario. -/
def resolverCD : String → String → Option String → Option String :=
  fun n _ _ =>
    if n == "alpha" then some "1.1"
    else if n == "beta" then some "2.0"
    else none

/-- An oracle whose copy primitive succeeds on the first attempt. -/
def okOracle : TaskOracle :=
  ⟨some "sha256:s", none, fun _ => CopyOutcome.ok, fun _ => 0⟩

/-- An oracle whose copy primitive raises an unexpected exception on
every attempt. -/
def excOracle : TaskOracle :=
  ⟨some "sha256:s", none, fun _ => CopyOutcome.raised, fun _ => 0⟩

/-- A task for image `n`, version `1.0`. -/
def mkTask (n : String) : SyncTask := ⟨n, "1.0", ""⟩

/-- Five tasks; the third one always throws. -/
def fiveTasks : List (SyncTask × TaskOracle) :=
  [(mkTask "img1", okOracle), (mkTask "img2", okOracle),
   (mkTask "img3", excOracle), (mkTask "img4", okOracle),
   (mkTask "img5", okOracle)]

/-- A concrete `MirrorSync` configuration. -/
def demoCfg : SyncConfig := ⟨"registry.example", "owner", 3, 2⟩

/-! ## Helper lemmas -/

theorem parseCore_length (cs : List Char) : (parseCore cs).length = 3 := by
  unfold parseCore
  simp only [List.length_take, List.length_append, List.length_replicate,
    List.length_map]
  omega

theorem char_digit_toNat_ge (c : Char) (h : c.isDigit = true) :
    48 ≤ (c.toNat : Int) := by
  simp [Char.isDigit] at h
  obtain ⟨h1, _⟩ := h
  have h3 : (48 : UInt32).toNat ≤ c.val.toNat := h1
  have h4 : (48 : UInt32).toNat = 48 := by decide
  have h5 : c.toNat = c.val.toNat := rfl
  omega

theorem digitsVal_nonneg (cs : List Char)
    (h : ∀ c ∈ cs, c.isDigit = true) : 0 ≤ digitsVal cs := by
  suffices hgen : ∀ acc : Int, 0 ≤ acc → ∀ l : List Char,
      (∀ c ∈ l, c.isDigit = true) →
      0 ≤ l.foldl (fun acc c => acc * 10 + ((c.toNat : Int) - 48)) acc by
    exact hgen 0 le_rfl cs h
  intro acc hacc l
  induction l generalizing acc with
  | nil => intro _; simpa using hacc
  | cons c rest ih =>
    intro hl
    have hc : 48 ≤ (c.toNat : Int) :=
      char_digit_toNat_ge c (hl c (by simp))
    exact ih _
      (by show 0 ≤ acc * 10 + ((c.toNat : Int) - 48); nlinarith)
      (fun d hd => hl d (by simp [hd]))

theorem chSplit_ne_nil (sep : Char) (cs : List Char) : chSplit sep cs ≠ [] := by
  induction cs with
  | nil => simp [chSplit]
  | cons a rest ih =>
    simp only [chSplit]
    by_cases h : (a == sep) = true
    · simp [h]
    · simp only [h]
      cases hr : chSplit sep rest with
      | nil => simp
      | cons p ps => simp

theorem chSplit_mem_subset (sep : Char) (cs : List Char) :
    ∀ p ∈ chSplit sep cs, ∀ c ∈ p, c ∈ cs := by
  induction cs with
  | nil =>
    intro p hp c hc
    simp [chSplit] at hp
    subst hp
    simp at hc
  | cons a rest ih =>
    intro p hp c hc
    simp only [chSplit] at hp
    by_cases h : (a == sep) = true
    · simp only [h, if_pos] at hp
      rcases List.mem_cons.mp hp with h1 | h1
      · subst h1; simp at hc
      · exact List.mem_cons_of_mem a (ih p h1 c hc)
    · simp only [h] at hp
      cases hr : chSplit sep rest with
      | nil => exact absurd hr (chSplit_ne_nil sep rest)
      | cons p0 ps =>
        rw [hr] at hp
        simp only [if_neg] at hp
        rcases List.mem_cons.mp hp with h1 | h1
        · subst h1
          rcases List.mem_cons.mp hc with h2 | h2
          · subst h2; simp
          · exact List.mem_cons_of_mem a
              (ih p0 (hr ▸ List.mem_cons_self p0 ps) c h2)
        · exact List.mem_cons_of_mem a
            (ih p (hr ▸ List.mem_cons_of_mem p0 h1) c hc)

theorem chSplit_not_sep (sep : Char) (cs : List Char) :
    ∀ p ∈ chSplit sep cs, sep ∉ p := by
  induction cs with
  | nil =>
    intro p hp
    simp [chSplit] at hp
    subst hp
    simp
  | cons a rest ih =>
    intro p hp
    simp only [chSplit] at hp
    by_cases h : (a == sep) = true
    · simp only [h, if_pos] at hp
      rcases List.mem_cons.mp hp with h1 | h1
      · subst h1; simp
      · exact ih p h1
    · simp only [h] at hp
      cases hr : chSplit sep rest with
      | nil => exact absurd hr (chSplit_ne_nil sep rest)
      | cons p0 ps =>
        rw [hr] at hp
        rcases List.mem_cons.mp hp with h1 | h1
        · subst h1
          intro hmem
          rcases List.mem_cons.mp hmem with h2 | h2
          · exact h (by simp [h2])
          · exact ih p0 (hr ▸ List.mem_cons_self p0 ps) h2
        · exact ih p (hr ▸ List.mem_cons_of_mem p0 h1)

theorem chTrim_subset (cs : List Char) : ∀ c ∈ chTrim cs, c ∈ cs := by
  intro c hc
  unfold chTrim at hc
  rw [List.mem_reverse] at hc
  have h1 := (List.dropWhile_sublist (l := (cs.dropWhile Char.isWhitespace).reverse)
    (p := Char.isWhitespace)).subset hc
  rw [List.mem_reverse] at h1
  exact (List.dropWhile_sublist (l := cs) (p := Char.isWhitespace)).subset h1

theorem pyIntDigits_nonneg (cs : List Char) (v : Int)
    (h : pyIntDigits cs = some v) : 0 ≤ v := by
  unfold pyIntDigits at h
  split_ifs at h with hg
  · simp only [Bool.and_eq_true] at hg
    obtain ⟨⟨⟨⟨_, hall⟩, _⟩, _⟩, _⟩ := hg
    have hv : v = digitsVal (cs.filter (fun c => c != '_')) := by
      injection h with h2
      exact h2.symm
    subst hv
    apply digitsVal_nonneg
    intro c hcmem
    have hc1 := List.mem_filter.mp hcmem
    have hc2 : (c.isDigit || (c == '_')) = true := by
      rw [List.all_eq_true] at hall
      simpa using hall c hc1.1
    have hc3 : (c != '_') = true := hc1.2
    simp only [bne_iff_ne, ne_eq] at hc3
    rcases Bool.or_eq_true_iff.mp hc2 with hd | he
    · exact hd
    · exact absurd (by simpa using he) hc3

theorem pyInt_nonneg (p : List Char) (hm : '-' ∉ p) (v : Int)
    (h : pyInt p = some v) : 0 ≤ v := by
  unfold pyInt at h
  cases htr : chTrim p with
  | nil => rw [htr] at h; cases h
  | cons c rest =>
    rw [htr] at h
    by_cases hc : (c == '+') = true
    · simp only [hc, if_pos] at h
      exact pyIntDigits_nonneg rest v h
    · simp only [hc] at h
      by_cases hcm : (c == '-') = true
      · exfalso
        apply hm
        have : c ∈ chTrim p := htr ▸ List.mem_cons_self c rest
        have hcp := chTrim_subset p c this
        rwa [show c = '-' by simpa using hcm] at hcp
      · simp only [hcm, if_neg] at h
        exact pyIntDigits_nonneg (c :: rest) v h

theorem parseCore_nonneg (cs : List Char) : ∀ x ∈ parseCore cs, 0 ≤ x := by
  intro x hx
  unfold parseCore at hx
  have hx2 := List.take_subset 3 _ hx
  rcases List.mem_append.mp hx2 with h1 | h1
  · rw [List.mem_map] at h1
    obtain ⟨p, hp, hpx⟩ := h1
    subst hpx
    cases hpv : pyInt p with
    | none => simp [hpv]
    | some v =>
      simp only [hpv, Option.getD_some]
      apply pyInt_nonneg p _ v hpv
      intro hmem
      set cs1 := match cs with
        | 'v' :: rest => rest
        | _ => cs with hcs1
      have hcore : (chSplit '-' cs1).headD [] ∈ chSplit '-' cs1 := by
        cases hr : chSplit '-' cs1 with
        | nil => exact absurd hr (chSplit_ne_nil '-' cs1)
        | cons q qs => simp
      have h3 := chSplit_mem_subset '.' _ p hp '-' hmem
      exact chSplit_not_sep '-' cs1 _ hcore h3
  · have := List.eq_of_mem_replicate h1
    omega

theorem dateAt_nonneg (cs : List Char) (y m d : Int)
    (h : dateAt cs = some (y, m, d)) : 0 ≤ y ∧ 0 ≤ m ∧ 0 ≤ d := by
  unfold dateAt at h
  split at h
  · rename_i y1 y2 y3 y4 h1 m1 m2 h2 d1 d2 r
    split_ifs at h with hg
    · simp only [Bool.and_eq_true] at hg
      obtain ⟨⟨⟨⟨⟨⟨⟨⟨⟨hy1, hy2⟩, hy3⟩, hy4⟩, _⟩, hm1⟩, hm2⟩, _⟩, hd1⟩, hd2⟩ := hg
      rw [Option.some.injEq, Prod.mk.injEq, Prod.mk.injEq] at h
      obtain ⟨hy, hmm, hdd⟩ := h
      refine ⟨hy ▸ digitsVal_nonneg _ ?_, hmm ▸ digitsVal_nonneg _ ?_,
        hdd ▸ digitsVal_nonneg _ ?_⟩
      · intro c hc
        simp only [List.mem_cons, List.not_mem_nil, or_false] at hc
        rcases hc with rfl | rfl | rfl | rfl <;> assumption
      · intro c hc
        simp only [List.mem_cons, List.not_mem_nil, or_false] at hc
        rcases hc with rfl | rfl <;> assumption
      · intro c hc
        simp only [List.mem_cons, List.not_mem_nil, or_false] at hc
        rcases hc with rfl | rfl <;> assumption
  · cases h

theorem findDate_nonneg (cs : List Char) (y m d : Int)
    (h : findDate cs = some (y, m, d)) : 0 ≤ y ∧ 0 ≤ m ∧ 0 ≤ d := by
  induction cs with
  | nil => cases h
  | cons c rest ih =>
    unfold findDate at h
    cases hda : dateAt (c :: rest) with
    | some t =>
      rw [hda] at h
      injection h with h2
      rw [h2] at hda
      exact dateAt_nonneg (c :: rest) y m d hda
    | none =>
      rw [hda] at h
      exact ih h

theorem versionKey_length (s : String) : (versionKey s).length = 3 := by
  unfold versionKey
  split_ifs with h1 h2
  · rfl
  · cases hfd : findDate s.data with
    | none => simp only [hfd]; exact parseCore_length _
    | some t => obtain ⟨y, m, d⟩ := t; simp [hfd]
  · exact parseCore_length _

theorem versionKey_nonneg (s : String) : ∀ x ∈ versionKey s, 0 ≤ x := by
  unfold versionKey
  split_ifs with h1 h2
  · intro x hx
    simp only [List.mem_cons, List.not_mem_nil, or_false] at hx
    rcases hx with rfl | rfl | rfl <;> omega
  · cases hfd : findDate s.data with
    | none => simp only [hfd]; exact parseCore_nonneg _
    | some t =>
      obtain ⟨y, m, d⟩ := t
      simp only [hfd]
      intro x hx
      obtain ⟨hy, hm, hd⟩ := findDate_nonneg s.data y m d hfd
      simp only [List.mem_cons, List.not_mem_nil, or_false] at hx
      rcases hx with rfl | rfl | rfl <;> omega
  · exact parseCore_nonneg _

theorem keyLeB_zero_le (k : List Int) (hlen : k.length = 3)
    (hnn : ∀ x ∈ k, 0 ≤ x) : keyLeB [0, 0, 0] k = true := by
  rcases k with _ | ⟨a, _ | ⟨b, _ | ⟨c, _ | _⟩⟩⟩ <;> simp at hlen
  have ha : 0 ≤ a := hnn a (by simp)
  have hb : 0 ≤ b := hnn b (by simp)
  have hc : 0 ≤ c := hnn c (by simp)
  simp only [keyLeB]
  split_ifs <;> first | rfl | omega

theorem keyLeB_refl (k : List Int) : keyLeB k k = true := by
  induction k with
  | nil => rfl
  | cons a as ih => simp [keyLeB, ih]

/-- In a list sorted by `r`, every element is the last element or
related to it. -/
theorem sorted_getLast_max {α : Type} {r : α → α → Prop} :
    ∀ (l : List α), l.Sorted r → ∀ (hne : l ≠ []) (x : α), x ∈ l →
      x = l.getLast hne ∨ r x (l.getLast hne) := by
  intro l
  induction l with
  | nil => intro _ hne; exact absurd rfl hne
  | cons a t ih =>
    intro hs hne x hx
    cases t with
    | nil =>
      simp only [List.mem_singleton] at hx
      left
      simp [hx, List.getLast]
    | cons b t2 =>
      have hlast : (a :: b :: t2).getLast hne = (b :: t2).getLast (by simp) :=
        List.getLast_cons (by simp)
      rw [List.sorted_cons] at hs
      rcases List.mem_cons.mp hx with rfl | hx2
      · right
        rw [hlast]
        exact hs.1 _ (List.getLast_mem (by simp))
      · rw [hlast]
        exact ih hs.2 (by simp) x hx2

/-- Membership in the output of `get_all_matching_versions` is exactly:
came from the input and passed the filter. -/
theorem mem_getAllMatchingVersions (pat : String) (exc : Option String)
    (tags : List String) (t : String) :
    t ∈ getAllMatchingVersions pat exc tags ↔
      t ∈ tags ∧ tagFilter pat exc t = true := by
  unfold getAllMatchingVersions
  by_cases hemp : (tags.filter (tagFilter pat exc)).isEmpty
  · simp only [hemp, if_pos]
    constructor
    · intro hx; simp at hx
    · intro ⟨h1, h2⟩
      rw [List.isEmpty_iff] at hemp
      have : t ∈ tags.filter (tagFilter pat exc) := List.mem_filter.mpr ⟨h1, h2⟩
      rw [hemp] at this
      simp at this
  · simp only [hemp, if_neg, Bool.false_eq_true, not_false_eq_true]
    rw [List.mem_insertionSort, List.mem_dedup, List.mem_filter]

theorem mirrorLoopGo_raised_false (mr : Nat) (rd : ℚ) (j : Nat → ℚ) :
    ∀ (fuel attempt : Nat),
      (mirrorLoopGo mr rd j (fun _ => CopyOutcome.raised) attempt fuel).result
        = false := by
  intro fuel
  induction fuel with
  | zero => intro attempt; rfl
  | succ f ih =>
    intro attempt
    simp only [mirrorLoopGo]
    by_cases h : attempt < mr - 1
    · simp [h, ih]
    · simp [h]

theorem syncSingleVersion_step (cfg : SyncConfig) (task : SyncTask)
    (o : TaskOracle) (st : SyncState) :
    syncSingleVersion cfg task o st =
      (taskSuccess cfg task o,
        if taskSuccess cfg task o then
          { st with
            mirroredImages := st.mirroredImages ++ [taskRecord cfg task o],
            successCount := st.successCount + 1 }
        else { st with failCount := st.failCount + 1 }) := by
  unfold syncSingleVersion taskSuccess taskRecord
  by_cases hg : isGhcrSource (task.imageName ++ ":" ++ task.version) = true
  · simp [hg]
  · simp only [Bool.not_eq_true] at hg
    by_cases hm : (mirrorImage o.srcDigest o.tgtDigest cfg.maxRetries
        cfg.retryDelay o.jitter o.copy).result = true
    · simp [hg, hm]
    · simp only [Bool.not_eq_true] at hm
      simp [hg, hm]

theorem runTasks_spec (cfg : SyncConfig) :
    ∀ (tasks : List (SyncTask × TaskOracle)) (st : SyncState),
      runTasks cfg tasks st =
        { mirroredImages := st.mirroredImages ++
            (tasks.filter (fun p => taskSuccess cfg p.1 p.2)).map
              (fun p => taskRecord cfg p.1 p.2),
          successCount := st.successCount +
            (tasks.filter (fun p => taskSuccess cfg p.1 p.2)).length,
          failCount := st.failCount +
            (tasks.filter (fun p => !(taskSuccess cfg p.1 p.2))).length } := by
  intro tasks
  induction tasks with
  | nil => intro st; simp [runTasks]
  | cons p rest ih =>
    intro st
    have hstep : runTasks cfg (p :: rest) st =
        runTasks cfg rest (syncSingleVersion cfg p.1 p.2 st).2 := by
      simp [runTasks]
    rw [hstep, syncSingleVersion_step]
    by_cases hs : taskSuccess cfg p.1 p.2 = true
    · rw [ih]
      simp [hs]
      omega
    · simp only [Bool.not_eq_true] at hs
      rw [ih]
      simp [hs]
      omega

theorem find_pair_eq (n : String) (v : Option String) :
    ∀ (l : List (String × Option String)), (l.map Prod.fst).Nodup →
      (n, v) ∈ l → l.find? (fun p => p.1 == n) = some (n, v) := by
  intro l
  induction l with
  | nil => intro _ hmem; simp at hmem
  | cons hd tl ih =>
    intro hnd hmem
    rw [List.map_cons, List.nodup_cons] at hnd
    rcases List.mem_cons.mp hmem with rfl | hmem2
    · rw [List.find?_cons_of_pos _ (by simp)]
    · have hne : (hd.1 == n) = false := by
        rw [beq_eq_false_iff_ne]
        intro heq
        exact hnd.1 (heq ▸ List.mem_map_of_mem Prod.fst hmem2)
      rw [List.find?_cons_of_neg _ (by simp [hne])]
      exact ih hnd.2 hmem2

theorem vmLookup_unique (results : List (String × Option String))
    (n : String) (v : Option String)
    (hnd : (results.map Prod.fst).Nodup) (hmem : (n, v) ∈ results) :
    vmLookup results n = v := by
  unfold vmLookup
  have hnd2 : (results.reverse.map Prod.fst).Nodup := by
    rw [List.map_reverse, List.nodup_reverse]
    exact hnd
  rw [find_pair_eq n v results.reverse hnd2 (List.mem_reverse.mpr hmem)]

theorem updateOneEntry_dry_fst
    (latestFor : String → String → Option String → Option String)
    (e : ImageEntry) : (updateOneEntry true latestFor e).1 = e := by
  cases hec : entryCheck e with
  | none => simp [updateOneEntry, hec]
  | some it =>
    cases hl : latestFor it.name it.pat it.exc with
    | none => simp [updateOneEntry, hec, hl]
    | some v =>
      by_cases h : ((!v.data.isEmpty) && v != it.cur) = true
      · simp [updateOneEntry, hec, hl, h]
      · simp [updateOneEntry, hec, hl,
          Bool.not_eq_true _ ▸ h]

theorem runUpdate_congr (dryRun : Bool)
    (f g : String → String → Option String → Option String)
    (entries : List ImageEntry)
    (h : ∀ e ∈ entries, updateOneEntry dryRun f e = updateOneEntry dryRun g e) :
    runUpdate dryRun f entries = runUpdate dryRun g entries := by
  unfold runUpdate
  rw [List.map_congr_left h]

theorem runUpdate_dry
    (latestFor : String → String → Option String → Option String)
    (entries : List ImageEntry) :
    (runUpdate true latestFor entries).entries = entries ∧
    (runUpdate true latestFor entries).saveCount = 0 := by
  constructor
  · unfold runUpdate
    simp only [List.map_map]
    have h1 : entries.map (Prod.fst ∘ updateOneEntry true latestFor) =
        entries.map id :=
      List.map_congr_left (fun e _ => updateOneEntry_dry_fst latestFor e)
    rw [h1, List.map_id]
  · unfold runUpdate
    simp

theorem runUpdate_wet_save
    (latestFor : String → String → Option String → Option String)
    (entries : List ImageEntry) :
    (runUpdate false latestFor entries).saveCount =
      if 0 < (runUpdate false latestFor entries).updatedCount then 1 else 0 := by
  unfold runUpdate
  simp

theorem runUpdate_wet_save_iff
    (latestFor : String → String → Option String → Option String)
    (entries : List ImageEntry) :
    (runUpdate false latestFor entries).saveCount ≤ 1 ∧
    ((runUpdate false latestFor entries).saveCount = 1 ↔
      0 < (runUpdate false latestFor entries).updatedCount) := by
  have h := runUpdate_wet_save latestFor entries
  by_cases h0 : 0 < (runUpdate false latestFor entries).updatedCount
  · rw [h, if_pos h0]
    exact ⟨by omega, by simp [h0]⟩
  · rw [h, if_neg h0]
    exact ⟨by omega, by simp [h0]⟩

/-! ## The claims -/

/-- C10: `version_key` is total: every input yields a triple of exactly
three integers without raising an exception (so every pair of tags is
comparable during sorting); a RELEASE-format tag yields its embedded
(year, month, day) triple; the empty string and strings with
non-numeric components default those components to 0. -/
theorem claim_C10_versionKey_total (s a b : String) :
    (versionKey s).length = 3 ∧
    (keyLeB (versionKey a) (versionKey b) = true ∨
      keyLeB (versionKey b) (versionKey a) = true) ∧
    versionKey "RELEASE.2025-10-15T17-29-55Z" = [2025, 10, 15] ∧
    versionKey "" = [0, 0, 0] ∧
    versionKey "latest" = [0, 0, 0] ∧
    versionKey "1.x.2" = [1, 0, 2] :=
  ⟨versionKey_length s, keyLeB_total _ _, by decide, by decide, by decide,
    by decide⟩

/-- C2 counterexample: the claim says `latest` is never selected as the
winner regardless of the input tag list, but with tag list `["latest"]`
and pattern `.*` the code returns `latest` as the winner (`version_key`
has no special case for the literal tag `latest`; it merely parses it to
`(0,0,0)`). -/
theorem claim_C2_counterexample :
    getLatestVersion ".*" none ["latest"] = some "latest" := by decide

/-- C2 amended: the literal tag `latest` gets the minimal sort key
`(0,0,0)`, so it ranks less-or-equal to every tag and is never selected
as the winner when some surviving tag has a key strictly above
`(0,0,0)`; in the concrete example the winner is `v1.10.0`. (When no
survivor has a positive key — e.g. the tag list `["latest"]` — `latest`
can still win.) -/
theorem claim_C2_amended (s pat : String) (exc : Option String)
    (tags : List String) (t : String)
    (ht : t ∈ getAllMatchingVersions pat exc tags)
    (hpos : keyLeB (versionKey t) [0, 0, 0] = false) :
    keyLeB (versionKey "latest") (versionKey s) = true ∧
    getLatestVersion pat exc tags ≠ some "latest" ∧
    getLatestVersion ".*" none ["1.2.3", "v1.10.0", "1.2", "latest"] =
      some "v1.10.0" := by
  refine ⟨?_, ?_, by decide⟩
  · have h1 : versionKey "latest" = [0, 0, 0] := by decide
    rw [h1]
    exact keyLeB_zero_le _ (versionKey_length s) (versionKey_nonneg s)
  · intro heq
    unfold getLatestVersion at heq
    set l := getAllMatchingVersions pat exc tags with hl
    have hne : l ≠ [] := by
      intro h0
      rw [h0] at heq
      simp at heq
    have hlast : l.getLast hne = "latest" := by
      rw [List.getLast?_eq_getLast l hne, Option.some.injEq] at heq
      exact heq
    have hsorted : l.Sorted tagLe := by
      rw [hl]
      unfold getAllMatchingVersions
      split_ifs
      · exact List.sorted_nil
      · exact List.sorted_insertionSort tagLe _
    rcases sorted_getLast_max l hsorted hne t ht with heq2 | hrel
    · rw [heq2, hlast] at hpos
      rw [show versionKey "latest" = [0, 0, 0] by decide] at hpos
      rw [keyLeB_refl] at hpos
      cases hpos
    · rw [hlast] at hrel
      unfold tagLe at hrel
      rw [show versionKey "latest" = [0, 0, 0] by decide] at hrel
      rw [hrel] at hpos
      cases hpos

theorem claim_C2_amended_witness :
    keyLeB (versionKey "latest") (versionKey "2.0") = true ∧
    getLatestVersion ".*" none ["1.2.3", "v1.10.0", "1.2", "latest"] ≠
      some "latest" ∧
    getLatestVersion ".*" none ["1.2.3", "v1.10.0", "1.2", "latest"] =
      some "v1.10.0" :=
  claim_C2_amended "2.0" ".*" none ["1.2.3", "v1.10.0", "1.2", "latest"]
    "1.2.3" (by decide) (by decide)

/-- C9: whenever `get_latest_version` returns a winner, the returned
string is character-for-character one of the input tag names — no
normalization is performed, so `v1.10.0` is returned with its `v`
prefix intact even though its sort key strips it. -/
theorem claim_C9_winner_verbatim (pat : String) (exc : Option String)
    (tags : List String) (t : String)
    (h : getLatestVersion pat exc tags = some t) :
    t ∈ tags ∧
    getLatestVersion ".*" none ["1.2.3", "v1.10.0", "1.2", "latest"] =
      some "v1.10.0" := by
  refine ⟨?_, by decide⟩
  unfold getLatestVersion at h
  have hmem : t ∈ getAllMatchingVersions pat exc tags := by
    cases hl : getAllMatchingVersions pat exc tags with
    | nil => rw [hl] at h; simp at h
    | cons a as =>
      rw [hl] at h
      rw [List.getLast?_eq_getLast (a :: as) (by simp), Option.some.injEq] at h
      rw [← h]
      exact List.getLast_mem (by simp)
  exact ((mem_getAllMatchingVersions pat exc tags t).mp hmem).1

theorem claim_C9_witness :
    "v1.10.0" ∈ (["1.2.3", "v1.10.0", "1.2", "latest"] : List String) ∧
    getLatestVersion ".*" none ["1.2.3", "v1.10.0", "1.2", "latest"] =
      some "v1.10.0" :=
  claim_C9_winner_verbatim ".*" none ["1.2.3", "v1.10.0", "1.2", "latest"]
    "v1.10.0" (by decide)

/-- C3 counterexample: the claim says that with `tag_pattern = "^v\d"`
and `exclude_pattern = "alpine"` the survivors of
`["v1.0", "v1.0-alpine", "1.0", "v2.0"]` are exactly
`["v1.0", "v2.0"]` — but the code applies `re.match` (anchored at the
start) to the exclude pattern as well, so `"alpine"` does not match
`"v1.0-alpine"` and that tag survives. -/
theorem claim_C3_counterexample :
    "v1.0-alpine" ∈ getAllMatchingVersions "^v\\d" (some "alpine")
        ["v1.0", "v1.0-alpine", "1.0", "v2.0"] ∧
    getAllMatchingVersions "^v\\d" (some "alpine")
        ["v1.0", "v1.0-alpine", "1.0", "v2.0"] ≠ ["v1.0", "v2.0"] := by
  decide

/-- C3 amended: a tag survives iff it matches `tag_pattern` under
anchored-prefix semantics and, when `exclude_pattern` is present and
nonempty, does NOT match `exclude_pattern` under the same
anchored-prefix semantics (not substring search); hence with the given
inputs the survivors are exactly the SET of three tags `v1.0`,
`v1.0-alpine` and `v2.0`, and the winner is `v2.0`. (The relative
order of the key-tied survivors `v1.0` and `v1.0-alpine` follows the
unspecified `list(set(...))` enumeration order, so only set-level facts
and the winner — whose key is strictly maximal — are asserted.) -/
theorem claim_C3_amended (pat : String) (exc : Option String)
    (tags : List String) (t : String) :
    (t ∈ getAllMatchingVersions pat exc tags ↔
      t ∈ tags ∧ reMatchB pat t = true ∧
        (∀ p, exc = some p → p.data ≠ [] → reMatchB p t = false)) ∧
    "v1.0" ∈ getAllMatchingVersions "^v\\d" (some "alpine")
      ["v1.0", "v1.0-alpine", "1.0", "v2.0"] ∧
    "v1.0-alpine" ∈ getAllMatchingVersions "^v\\d" (some "alpine")
      ["v1.0", "v1.0-alpine", "1.0", "v2.0"] ∧
    "v2.0" ∈ getAllMatchingVersions "^v\\d" (some "alpine")
      ["v1.0", "v1.0-alpine", "1.0", "v2.0"] ∧
    "1.0" ∉ getAllMatchingVersions "^v\\d" (some "alpine")
      ["v1.0", "v1.0-alpine", "1.0", "v2.0"] ∧
    (getAllMatchingVersions "^v\\d" (some "alpine")
      ["v1.0", "v1.0-alpine", "1.0", "v2.0"]).length = 3 ∧
    getLatestVersion "^v\\d" (some "alpine")
        ["v1.0", "v1.0-alpine", "1.0", "v2.0"] = some "v2.0" := by
  refine ⟨?_, by decide, by decide, by decide, by decide, by decide, by decide⟩
  rw [mem_getAllMatchingVersions]
  unfold tagFilter
  constructor
  · rintro ⟨hmem, hf⟩
    rw [Bool.and_eq_true] at hf
    obtain ⟨hp, hneg⟩ := hf
    refine ⟨hmem, hp, ?_⟩
    rintro p rfl hne
    rw [Bool.not_eq_true'] at hneg
    rw [Bool.and_eq_false_iff] at hneg
    rcases hneg with h1 | h1
    · exfalso
      rw [Bool.not_eq_false'] at h1
      rw [List.isEmpty_iff] at h1
      exact hne h1
    · exact h1
  · rintro ⟨hmem, hp, hex⟩
    refine ⟨hmem, ?_⟩
    rw [Bool.and_eq_true]
    refine ⟨hp, ?_⟩
    rw [Bool.not_eq_true']
    cases exc with
    | none => rfl
    | some p =>
      by_cases hpe : p.data.isEmpty = true
      · simp [hpe]
      · rw [Bool.and_eq_false_iff]
        right
        exact hex p rfl (fun h => hpe (by rw [h]; rfl))

/-- C1 counterexample: the claim says every failing copy attempt —
including any non-rate-limit non-zero exit — is retried up to
`max_retries` times (3 invocations with `max_retries = 3`); but a
primitive that always fails with a non-rate-limit error is invoked
exactly once and the task fails immediately. -/
theorem claim_C1_counterexample :
    (mirrorLoop 3 2 (fun _ => 0)
        (fun _ => CopyOutcome.failed "manifest unknown")).calls = 1 ∧
    (mirrorLoop 3 2 (fun _ => 0)
        (fun _ => CopyOutcome.failed "manifest unknown")).result = false := by
  constructor <;> decide

/-- C1 amended: only rate-limit failures, timeouts and unexpected
exceptions are retried up to `max_retries` attempts; with
`max_retries = 3` such an always-failing primitive is invoked exactly 3
times before the task fails, with no sleep before the first attempt and
backoff delays `retry_delay * 2 ** (attempt - 1)` plus jitter before
each retry, strictly increasing whenever the jitter lies in `[0, 1)`
and `retry_delay ≥ 1`; any other non-zero exit fails after a single
invocation. -/
theorem claim_C1_amended (retryDelay : ℚ) (jitter : Nat → ℚ)
    (stderr : String) (hrl : isRateLimit stderr = true)
    (hj : ∀ i, 0 ≤ jitter i ∧ jitter i < 1) (hrd : 1 ≤ retryDelay) :
    mirrorLoop 3 retryDelay jitter (fun _ => CopyOutcome.failed stderr) =
      ⟨false, 3, [retryDelay * 2 ^ 0 + jitter 1,
        retryDelay * 2 ^ 1 + jitter 2]⟩ ∧
    mirrorLoop 3 retryDelay jitter (fun _ => CopyOutcome.timedOut) =
      ⟨false, 3, [retryDelay * 2 ^ 0 + jitter 1,
        retryDelay * 2 ^ 1 + jitter 2]⟩ ∧
    mirrorLoop 3 retryDelay jitter (fun _ => CopyOutcome.raised) =
      ⟨false, 3, [retryDelay * 2 ^ 0 + jitter 1,
        retryDelay * 2 ^ 1 + jitter 2]⟩ ∧
    retryDelay * 2 ^ 0 + jitter 1 < retryDelay * 2 ^ 1 + jitter 2 ∧
    (mirrorLoop 3 retryDelay jitter
        (fun _ => CopyOutcome.failed "no such manifest")).calls = 1 := by
  have hnr : isRateLimit "no such manifest" = false := by decide
  refine ⟨?_, ?_, ?_, ?_, ?_⟩
  · simp [mirrorLoop, mirrorLoopGo, hrl]
  · simp [mirrorLoop, mirrorLoopGo]
  · simp [mirrorLoop, mirrorLoopGo]
  · have h1 := (hj 1).2
    have h2 := (hj 2).1
    have : (2 : ℚ) ^ 0 = 1 := by norm_num
    rw [this]
    have : (2 : ℚ) ^ 1 = 2 := by norm_num
    rw [this]
    linarith
  · simp [mirrorLoop, mirrorLoopGo, hnr]

theorem claim_C1_amended_witness :
    mirrorLoop 3 2 (fun _ => (1 : ℚ) / 2)
        (fun _ => CopyOutcome.failed "rate limit exceeded") =
      ⟨false, 3, [2 * 2 ^ 0 + (1 : ℚ) / 2, 2 * 2 ^ 1 + (1 : ℚ) / 2]⟩ ∧
    (2 : ℚ) * 2 ^ 0 + 1 / 2 < 2 * 2 ^ 1 + 1 / 2 :=
  ⟨(claim_C1_amended 2 (fun _ => 1 / 2) "rate limit exceeded" (by decide)
      (fun _ => ⟨by norm_num, by norm_num⟩) (by norm_num)).1,
    (claim_C1_amended 2 (fun _ => 1 / 2) "rate limit exceeded" (by decide)
      (fun _ => ⟨by norm_num, by norm_num⟩) (by norm_num)).2.2.2.1⟩

/-- C5: when both digest lookups resolve (return a nonempty digest) and
the digests are equal, `mirror_image` returns success with the copy
primitive invoked zero times; when either lookup fails (`None`), the
image is treated as needing a copy. -/
theorem claim_C5_digest_skip (d : String) (hd : d.data ≠ [])
    (mr : Nat) (rd : ℚ) (j : Nat → ℚ) (f : Nat → CopyOutcome) :
    mirrorImage (some d) (some d) mr rd j f = ⟨true, 0, []⟩ ∧
    (∀ tgt, needsSync none tgt = true) ∧
    (∀ src, needsSync src none = true) := by
  refine ⟨?_, fun tgt => rfl, ?_⟩
  · have h1 : d.data.isEmpty = false := by
      cases hdd : d.data with
      | nil => exact absurd hdd hd
      | cons a l => rfl
    unfold mirrorImage needsSync pyTruthy
    simp [h1]
  · intro src
    unfold needsSync pyTruthy
    cases src with
    | none => rfl
    | some s => by_cases hs : s.data.isEmpty = true <;> simp [hs]

theorem claim_C5_witness :
    mirrorImage (some "sha256:abc") (some "sha256:abc") 3 2 (fun _ => 0)
      (fun _ => CopyOutcome.ok) = ⟨true, 0, []⟩ :=
  (claim_C5_digest_skip "sha256:abc" (by decide) 3 2 (fun _ => 0)
    (fun _ => CopyOutcome.ok)).1

/-- C6: with `dry_run=True`, `update_versions` never mutates any
entry's `source` and never writes the manifest, even when updates are
detected; with `dry_run=False` the manifest is saved exactly once,
after all per-entry resolutions, iff at least one entry was updated.
Holds in both the concurrent and the serial branch. -/
theorem claim_C6_dry_run_frame
    (resolver : String → String → Option String → Option String)
    (results : List (String × Option String)) (useConc : Bool)
    (entries : List ImageEntry) :
    (updateVersions resolver results useConc true entries).entries =
      entries ∧
    (updateVersions resolver results useConc true entries).saveCount = 0 ∧
    (updateVersions resolver results useConc false entries).saveCount ≤ 1 ∧
    ((updateVersions resolver results useConc false entries).saveCount = 1 ↔
      0 < (updateVersions resolver results useConc false
        entries).updatedCount) := by
  unfold updateVersions updateVersionsConc updateVersionsSerial
  split_ifs
  · exact ⟨(runUpdate_dry _ entries).1, (runUpdate_dry _ entries).2,
      (runUpdate_wet_save_iff _ entries).1, (runUpdate_wet_save_iff _ entries).2⟩
  · exact ⟨(runUpdate_dry _ entries).1, (runUpdate_dry _ entries).2,
      (runUpdate_wet_save_iff _ entries).1, (runUpdate_wet_save_iff _ entries).2⟩

/-- C4 counterexample: with two enabled entries that share the
repository name `repo` but carry different tag patterns (resolver:
pattern `a` ↦ `2.0`, pattern `b` ↦ `1.0`), the serial mode updates one
entry (count 1) while the concurrent mode — whose result dict is keyed
by repository name only — updates none (count 0) when results arrive in
submission order, so the two modes are not equivalent on every
manifest. -/
theorem claim_C4_counterexample :
    (updateVersionsSerial resolverAB false [entA, entB]).updatedCount = 1 ∧
    (updateVersionsConc false (batchResults resolverAB [entA, entB])
        [entA, entB]).updatedCount = 0 := by
  constructor <;> decide

/-- C4 amended: provided the checked entries' repository names are
pairwise distinct, the concurrent mode produces exactly the serial
mode's result — same entry mutations and same updated count — for
every completion order of the batch lookups. -/
theorem claim_C4_amended
    (resolver : String → String → Option String → Option String)
    (dryRun : Bool) (entries : List ImageEntry)
    (results : List (String × Option String))
    (hnd : ((entries.filterMap entryCheck).map CheckItem.name).Nodup)
    (hperm : results.Perm (batchResults resolver entries)) :
    updateVersionsConc dryRun results entries =
      updateVersionsSerial resolver dryRun entries := by
  unfold updateVersionsConc updateVersionsSerial
  apply runUpdate_congr
  intro e he
  cases hec : entryCheck e with
  | none => simp [updateOneEntry, hec]
  | some it =>
    have hmem : (it.name, resolver it.name it.pat it.exc) ∈
        batchResults resolver entries := by
      unfold batchResults
      exact List.mem_map_of_mem _ (List.mem_filterMap.mpr ⟨e, he, hec⟩)
    have hndb : ((batchResults resolver entries).map Prod.fst).Nodup := by
      unfold batchResults
      rw [List.map_map]
      exact hnd
    have hndr : (results.map Prod.fst).Nodup := by
      rw [(hperm.map Prod.fst).nodup_iff]
      exact hndb
    have hl : vmLookup results it.name = resolver it.name it.pat it.exc :=
      vmLookup_unique results _ _ hndr (hperm.mem_iff.mpr hmem)
    simp [updateOneEntry, hec, hl]

theorem claim_C4_amended_witness :
    updateVersionsConc false (batchResults resolverCD [entC, entD]).reverse
        [entC, entD] =
      updateVersionsSerial resolverCD false [entC, entD] :=
  claim_C4_amended resolverCD false [entC, entD]
    (batchResults resolverCD [entC, entD]).reverse (by decide)
    (List.reverse_perm _)

/-- C7: over any completion order of the (lock-atomic) per-task
updates, a record is appended iff the task's copy was confirmed
successful, `success_count` always equals the length of
`mirrored_images`, and `fail_count` counts exactly the unsuccessful
tasks — the three fields never diverge. -/
theorem claim_C7_records_consistent (cfg : SyncConfig)
    (tasks : List (SyncTask × TaskOracle)) :
    (runTasks cfg tasks initialSyncState).successCount =
      (runTasks cfg tasks initialSyncState).mirroredImages.length ∧
    (runTasks cfg tasks initialSyncState).mirroredImages =
      (tasks.filter (fun p => taskSuccess cfg p.1 p.2)).map
        (fun p => taskRecord cfg p.1 p.2) ∧
    (runTasks cfg tasks initialSyncState).failCount =
      (tasks.filter (fun p => !(taskSuccess cfg p.1 p.2))).length := by
  rw [runTasks_spec]
  refine ⟨?_, by simp [initialSyncState], by simp [initialSyncState]⟩
  simp [initialSyncState]

/-- C8: a task whose copy primitive always raises an unexpected
exception still returns a boolean (`False`) to the scheduler and
contributes exactly one failure-count increment, leaving records and
success count untouched; concretely, of 5 tasks where task 3 always
throws, tasks 1, 2, 4, 5 are still executed and recorded, with
`fail_count = 1` attributable to task 3 only. -/
theorem claim_C8_exception_isolated (cfg : SyncConfig) (task : SyncTask)
    (o : TaskOracle) (st : SyncState)
    (hc : o.copy = fun _ => CopyOutcome.raised)
    (hns : needsSync o.srcDigest o.tgtDigest = true)
    (hg : isGhcrSource (task.imageName ++ ":" ++ task.version) = false) :
    syncSingleVersion cfg task o st =
      (false, { st with failCount := st.failCount + 1 }) ∧
    runTasks demoCfg fiveTasks initialSyncState =
      { mirroredImages := [taskRecord demoCfg (mkTask "img1") okOracle,
          taskRecord demoCfg (mkTask "img2") okOracle,
          taskRecord demoCfg (mkTask "img4") okOracle,
          taskRecord demoCfg (mkTask "img5") okOracle],
        successCount := 4, failCount := 1 } ∧
    (runTasks demoCfg fiveTasks initialSyncState).mirroredImages.map
        SyncRecord.name = ["img1", "img2", "img4", "img5"] := by
  refine ⟨?_, by decide, by decide⟩
  rw [syncSingleVersion_step]
  have hts : taskSuccess cfg task o = false := by
    unfold taskSuccess mirrorImage mirrorLoop
    rw [hns, hc, hg]
    simp [mirrorLoopGo_raised_false]
  rw [hts]
  simp

theorem claim_C8_witness :
    syncSingleVersion demoCfg (mkTask "img3") excOracle initialSyncState =
      (false, { mirroredImages := [], successCount := 0, failCount := 1 }) :=
  (claim_C8_exception_isolated demoCfg (mkTask "img3") excOracle
    initialSyncState rfl (by decide) (by decide)).1

end DockerhubMirror
